import Mathlib

/-!
# Verification of the Yieldera AI backend orchestration core

Shallow embedding of the quota controller (`core/rate_limit.py`), the
response cache (`integrations/redis_cache.py`), the weather tool's cache
discipline (`tools/weather.py`), the admin usage-stats endpoint
(`api/admin.py`) and the agent loop (`core/agent.py`), together with
proofs and refutations of the specified properties.

Time is modelled in integer seconds since the epoch; a calendar day is
`t / 86400`.  Redis keys are modelled structurally (key by `(user, day)`
pair instead of the string `"rate_limit:{user}:{day}"`), with the value
paired with its absolute expiry timestamp; a key is live at `now` iff
`now < expiry`.  Python exceptions are modelled with `Except`.
-/

namespace Yieldera

/-- Association-list lookup (models a Python dict / redis keyspace read). -/
def alookup {α β : Type} [DecidableEq α] (k : α) : List (α × β) → Option β
  | [] => none
  | (a, b) :: rest => if a = k then some b else alookup k rest

/-- Association-list update/insert (models a Python dict / redis key write). -/
def aset {α β : Type} [DecidableEq α] (k : α) (v : β) : List (α × β) → List (α × β)
  | [] => [(k, v)]
  | (a, b) :: rest => if a = k then (k, v) :: rest else (a, b) :: aset k v rest

/-- Association-list delete (models `del d[k]`). -/
def adel {α β : Type} [DecidableEq α] (k : α) : List (α × β) → List (α × β)
  | [] => []
  | (a, b) :: rest => if a = k then rest else (a, b) :: adel k rest

/-! ## Quota controller (`core/rate_limit.py`) -/

/-- `settings.RATE_LIMIT_PER_DAY` (`core/config.py`). -/
def RATE_LIMIT_PER_DAY : Nat := 5

/-- The admin designations checked case-insensitively by
`check_rate_limit` and `verify_admin`. -/
def ADMIN_ROLES : List String := ["admin", "administrator"]

/-- `str.lower()`, written character-by-character so that the kernel can
evaluate it on literals (it is the same map as `String.toLower`). -/
def pyLower (s : String) : String := String.mk (s.data.map Char.toLower)

/-- `user_role.lower() in ["admin", "administrator"]`. -/
def isAdminRole (role : String) : Bool := ADMIN_ROLES.contains (pyLower role)

/-- Day number of an absolute timestamp (`datetime.now().strftime("%Y-%m-%d")`
abstracted to an integer day index). -/
def dayOf (t : Nat) : Nat := t / 86400

/-- The success payload of `check_rate_limit` (the returned dict). -/
structure RLResult where
  limit : Nat
  remaining : Nat
  bonus : Nat
  deriving DecidableEq, Repr

/-- Observable outcome of one `check_rate_limit` call:
either the admin-exempt dict, the normal success dict, or the
`HTTPException(status_code=429, ...)` carrying the effective limit. -/
inductive RLOutcome where
  /-- `{"limit": "unlimited", "remaining": "unlimited", "exempt": True}` -/
  | exempt : RLOutcome
  | ok : RLResult → RLOutcome
  /-- HTTP 429, the payload carries `total_limit`. -/
  | http429 : Nat → RLOutcome
  deriving DecidableEq, Repr

/-- Shared tail of both store paths of `check_rate_limit`:
`total_limit = RATE_LIMIT_PER_DAY + bonus`; reject iff
`current_count > total_limit`, else `remaining = max(0, total_limit - count)`
(`Nat` subtraction already truncates at zero). -/
def quotaVerdict (current_count bonus : Nat) : RLOutcome :=
  let total_limit := RATE_LIMIT_PER_DAY + bonus
  if current_count > total_limit then .http429 total_limit
  else .ok ⟨total_limit, total_limit - current_count, bonus⟩

/-- Redis keyspace as used by `rate_limit.py` and `admin.py`:
`rate_limit:{user}:{day}` counters and `quota_boost:{user}` bonuses,
each value paired with its absolute expiry time. -/
structure RedisState where
  counters : List ((String × Nat) × (Nat × Nat))
  bonuses : List (String × (Nat × Nat))
  deriving DecidableEq, Repr

/-- `r.incr(key)` followed by `if current_count == 1: r.expire(key, 86400)`:
a live key is bumped, a missing or expired key starts at 1 with a 24h TTL. -/
def redisIncrCounter (s : RedisState) (now : Nat) (k : String × Nat) : Nat × RedisState :=
  match alookup k s.counters with
  | some (c, e) =>
    if now < e then (c + 1, { s with counters := aset k (c + 1, e) s.counters })
    else (1, { s with counters := aset k (1, now + 86400) s.counters })
  | none => (1, { s with counters := aset k (1, now + 86400) s.counters })

/-- `int(r.get(bonus_key) or 0)`: a missing or expired bonus key reads as 0. -/
def redisBonus (s : RedisState) (now : Nat) (user_id : String) : Nat :=
  match alookup user_id s.bonuses with
  | some (b, e) => if now < e then b else 0
  | none => 0

/-- `check_rate_limit`, Redis path. -/
def check_rate_limit_redis (s : RedisState) (now : Nat) (user_id user_role : String) :
    RLOutcome × RedisState :=
  if isAdminRole user_role then (.exempt, s)
  else
    let (current_count, s') := redisIncrCounter s now (user_id, dayOf now)
    let bonus_messages := redisBonus s' now user_id
    (quotaVerdict current_count bonus_messages, s')

/-- One `_memory_limit_store[user_id]` record. -/
structure MemEntry where
  date : Nat
  count : Nat
  bonus : Nat
  deriving DecidableEq, Repr

/-- The module-level `_memory_limit_store` dict. -/
abbrev MemStore := List (String × MemEntry)

/-- The record `check_rate_limit`'s memory path works on after the
"reset if new day" step: a missing record, an empty record, or a record
whose `date` differs from today is replaced by
`{"date": today, "count": 0, "bonus": 0}`. -/
def memToday (s : MemStore) (user_id : String) (today : Nat) : MemEntry :=
  match alookup user_id s with
  | some e => if e.date = today then e else ⟨today, 0, 0⟩
  | none => ⟨today, 0, 0⟩

/-- `check_rate_limit`, in-memory fallback path. -/
def check_rate_limit_mem (s : MemStore) (now : Nat) (user_id user_role : String) :
    RLOutcome × MemStore :=
  if isAdminRole user_role then (.exempt, s)
  else
    let e0 : MemEntry := memToday s user_id (dayOf now)
    let e1 : MemEntry := { e0 with count := e0.count + 1 }
    (quotaVerdict e1.count e1.bonus, aset user_id e1 s)

/-- `grant_quota_boost`, Redis path:
`r.set(bonus_key, additional_messages, ex=86400 * 30)`. -/
def grant_quota_boost_redis (s : RedisState) (now : Nat) (user_id : String)
    (additional_messages : Nat) : RedisState :=
  { s with bonuses := aset user_id (additional_messages, now + 86400 * 30) s.bonuses }

/-- `grant_quota_boost`, in-memory fallback path: create the record if
missing (dated today, count 0), then overwrite its `bonus` field.
No expiry of its own is recorded. -/
def grant_quota_boost_mem (s : MemStore) (now : Nat) (user_id : String)
    (additional_messages : Nat) : MemStore :=
  match alookup user_id s with
  | some e => aset user_id { e with bonus := additional_messages } s
  | none => aset user_id ⟨dayOf now, 0, additional_messages⟩ s

/-! ## Response cache (`integrations/redis_cache.py`) -/

/-- One `InMemoryCache._store` entry: `{'data': ..., 'expires': ...}`. -/
structure CacheEntry (V : Type) where
  data : V
  expires : Nat
  deriving DecidableEq, Repr

/-- `InMemoryCache._store`, keys of type `K`, cached payloads of type `V`. -/
abbrev InMemStore (K V : Type) := List (K × CacheEntry V)

/-- `InMemoryCache.get_json`: a missing entry is a miss; an entry with
`expires < time.time()` is deleted and reported as a miss; otherwise the
data is returned.  The (possibly lazily evicted) store is returned too. -/
def imc_get_json {K V : Type} [DecidableEq K] (s : InMemStore K V) (now : Nat) (key : K) :
    Option V × InMemStore K V :=
  match alookup key s with
  | none => (none, s)
  | some entry =>
    if entry.expires < now then (none, adel key s)
    else (some entry.data, s)

/-- `InMemoryCache.set_json`: stores the value with the absolute expiry
`time.time() + ttl_seconds`. -/
def imc_set_json {K V : Type} [DecidableEq K] (s : InMemStore K V) (now : Nat) (key : K)
    (value : V) (ttl_seconds : Nat) : InMemStore K V :=
  aset key ⟨value, now + ttl_seconds⟩ s

/-- The fallible redis client primitives used by `CacheService`
(`self.redis.get` / `self.redis.setex`); an `Except.error` models the
call raising. -/
structure RedisKV where
  get : String → Except String (Option String)
  setex : String → Nat → String → Except String Unit

/-- `CacheService` backend after `__init__`: either a connected redis
client together with the `json.loads`/`json.dumps` codecs (both of which
may raise), or the in-memory fallback store. -/
inductive CSBackend (V : Type) where
  | redis (r : RedisKV) (loads : String → Except String V) (dumps : V → Except String String)
  | memory (s : InMemStore String V)

/-- `CacheService.get_json`.  The result is `Except`-valued so that an
exception escaping to the caller would be representable as
`Except.error`; the redis branch wraps its body in `try/except` and
returns `None` on any failure, the memory branch delegates to
`InMemoryCache.get_json`. -/
def cs_get_json {V : Type} (b : CSBackend V) (now : Nat) (key : String) :
    Except String (Option V × CSBackend V) :=
  match b with
  | .redis r loads dumps =>
    match r.get key with
    | .error _ => .ok (none, .redis r loads dumps)
    | .ok none => .ok (none, .redis r loads dumps)
    | .ok (some data) =>
      match loads data with
      | .error _ => .ok (none, .redis r loads dumps)
      | .ok v => .ok (some v, .redis r loads dumps)
  | .memory s =>
    let (v, s') := imc_get_json s now key
    .ok (v, .memory s')

/-- `CacheService.set_json`.  The redis branch wraps
`self.redis.setex(key, ttl, json.dumps(value))` in `try/except` and only
prints on failure; the memory branch delegates to
`InMemoryCache.set_json`. -/
def cs_set_json {V : Type} (b : CSBackend V) (now : Nat) (key : String) (value : V)
    (ttl_seconds : Nat) : Except String (CSBackend V) :=
  match b with
  | .redis r loads dumps =>
    match dumps value with
    | .error _ => .ok (.redis r loads dumps)
    | .ok payload =>
      match r.setex key ttl_seconds payload with
      | .error _ => .ok (.redis r loads dumps)
      | .ok _ => .ok (.redis r loads dumps)
  | .memory s => .ok (.memory (imc_set_json s now key value ttl_seconds))

/-! ## Weather tool (`tools/weather.py`) -/

/-- `round(x, 2)` on exact rationals, with Python's round-half-to-even
tie-breaking. -/
def pyRound2 (x : ℚ) : ℚ :=
  let y := x * 100
  let f : ℤ := ⌊y⌋
  let r := y - (f : ℚ)
  let n : ℤ :=
    if r < 1/2 then f
    else if r > 1/2 then f + 1
    else if f % 2 = 0 then f else f + 1
  (n : ℚ) / 100

/-- `f"weather:{round(lat, 2)}:{round(lon, 2)}"`, modelled structurally. -/
def weather_cache_key (lat lon : ℚ) : String × ℚ × ℚ :=
  ("weather", pyRound2 lat, pyRound2 lon)

/-- The `daily` block and `daily_units` of a successful OpenMeteo
response, with the `daily.get(..., [])` defaults already folded in. -/
structure MeteoData where
  time : List String
  temperature_2m_max : List ℚ
  temperature_2m_min : List ℚ
  precipitation_sum : List ℚ
  precipitation_probability_max : List ℚ
  daily_units : List (String × String)
  deriving DecidableEq, Repr

/-- The `simplified` dict built by `get_weather_forecast`. -/
structure SimplifiedForecast where
  dates : List String
  max_temp : List ℚ
  min_temp : List ℚ
  rain_mm : List ℚ
  rain_prob : List ℚ
  deriving DecidableEq, Repr

/-- The `result` dict cached and returned by `get_weather_forecast`. -/
structure WeatherResult where
  lat : ℚ
  lon : ℚ
  forecast : SimplifiedForecast
  units : List (String × String)
  deriving DecidableEq, Repr

/-- Return value of `get_weather_forecast`: the cached/fetched result
dict, or the `{"error": ..., "details": ...}` object from the
`except` branch. -/
inductive WeatherOut where
  | ok : WeatherResult → WeatherOut
  | errObj (error details : String) : WeatherOut
  deriving DecidableEq, Repr

/-- The weather tool's response cache (the `CacheService` singleton on
its in-memory fallback backend, specialised to weather payloads and
structural keys). -/
abbrev WeatherCache := InMemStore (String × ℚ × ℚ) WeatherResult

/-- `get_weather_forecast(lat, lon)`.  The upstream
`requests.get` + `raise_for_status` + `json()` pipeline is abstracted as
an `Except`-valued input: `Except.error e` models the fetch raising with
message `e`.  A cached dict (always a non-empty, hence truthy, dict) is
returned as a hit; on a miss the upstream result is simplified and
cached for 14400 seconds, while a fetch failure returns the error object
without writing to the cache. -/
def get_weather_forecast (cache : WeatherCache) (now : Nat)
    (upstream : Except String MeteoData) (lat lon : ℚ) :
    WeatherOut × WeatherCache :=
  let cache_key := weather_cache_key lat lon
  match imc_get_json cache now cache_key with
  | (some cached_data, cache') => (.ok cached_data, cache')
  | (none, cache') =>
    match upstream with
    | .error e => (.errObj "Weather service unavailable" e, cache')
    | .ok data =>
      let simplified : SimplifiedForecast :=
        ⟨data.time, data.temperature_2m_max, data.temperature_2m_min,
          data.precipitation_sum, data.precipitation_probability_max⟩
      let result : WeatherResult := ⟨lat, lon, simplified, data.daily_units⟩
      (.ok result, imc_set_json cache' now cache_key result 14400)

/-! ## Admin usage stats (`api/admin.py`) -/

/-- One element of `stats["users_at_limit"]`. -/
structure UserAtLimit where
  user_id : String
  messages_used : Nat
  limit : Nat
  bonus : Nat
  deriving DecidableEq, Repr

/-- The dict returned by `get_usage_stats`. -/
structure UsageStats where
  date : Nat
  users_at_limit : List UserAtLimit
  total_users_tracked : Nat
  deriving DecidableEq, Repr

/-- `GET /admin/usage-stats` after `verify_admin` passed.  `r` is the
result of `get_redis()`: with a connection, the live `rate_limit:*:{today}`
keys are scanned and every user whose count has reached
`RATE_LIMIT_PER_DAY + bonus` is reported; with `r` falsy the initial
empty stats dict is returned unchanged (the in-memory fallback store is
never consulted). -/
def get_usage_stats (r : Option RedisState) (now : Nat) : UsageStats :=
  let today := dayOf now
  match r with
  | none => ⟨today, [], 0⟩
  | some s =>
    let keys := s.counters.filter (fun kv => decide (kv.1.2 = today ∧ now < kv.2.2))
    let users_at_limit := keys.filterMap (fun kv =>
      let user_id := kv.1.1
      let count := kv.2.1
      let bonus := redisBonus s now user_id
      let total_limit := RATE_LIMIT_PER_DAY + bonus
      if count ≥ total_limit then some ⟨user_id, count, total_limit, bonus⟩ else none)
    ⟨today, users_at_limit, keys.length⟩

/-! ## Agent loop (`core/agent.py`)

`A` is the type of parsed tool-argument objects, `R` the type of
successful tool payloads; both are opaque to the control flow being
verified.  Tool handlers (the seven imported tool functions, argument
projections such as `args['lat']` included) are abstracted as one oracle
`h : String → A → Except String R` whose `Except.error` models the
handler raising.  The completion provider is abstracted as a function
from the round number (the value of `step` after its increment) to its
response for that round; its dependence on the transcript is irrelevant
to the properties below. -/

/-- The names wired into the `if/elif` dispatch chain of
`process_user_query` (in sync with `TOOLS_SCHEMA`). -/
def KNOWN_TOOLS : List String :=
  ["get_fields", "get_weather", "get_vegetation_health", "get_historical_weather",
   "get_alerts", "create_alert", "get_insurance_quote"]

/-- One entry of `response_msg.tool_calls`; `arguments` is the outcome of
`json.loads(tool_call.function.arguments)` (`Except.error` = the parse
raising). -/
structure ToolCall (A : Type) where
  id : String
  name : String
  arguments : Except String A

/-- A `tool_result` as serialised into the tool message: the handler's
payload, or the `{"error": ...}` object produced for a caught handler
exception or an unknown tool name. -/
inductive ToolResult (R : Type) where
  | ok : R → ToolResult R
  | err : String → ToolResult R
  deriving DecidableEq, Repr

/-- A transcript message appended during tool execution. -/
inductive AMessage (A R : Type) where
  | assistant (tool_calls : List (ToolCall A))
  | tool (tool_call_id : String) (name : String) (content : ToolResult R)

/-- The `try/except` body computing `tool_result` for one call: a known
tool runs its handler with exceptions converted to `{"error": str(e)}`,
an unknown name yields `{"error": "Unknown tool: ..."}`. -/
def tool_result_of {A R : Type} (h : String → A → Except String R)
    (name : String) (args : A) : ToolResult R :=
  if KNOWN_TOOLS.contains name then
    match h name args with
    | .ok v => .ok v
    | .error e => .err e
  else .err ("Unknown tool: " ++ name)

/-- Processing of one `tool_call` in the `for` loop:
`json.loads(tool_call.function.arguments)` runs OUTSIDE the `try` block,
so a parse failure propagates (`Except.error`); otherwise the correlated
tool message is produced. -/
def exec_tool_call {A R : Type} (h : String → A → Except String R) (tc : ToolCall A) :
    Except String (AMessage A R) :=
  match tc.arguments with
  | .error e => .error e
  | .ok args => .ok (.tool tc.id tc.name (tool_result_of h tc.name args))

/-- The full `for tool_call in tool_calls` loop: returns the tool
messages appended to the transcript (in request order) and, when some
call's argument parse raised, the propagating exception — in which case
the messages of the calls after it are never produced. -/
def run_tool_batch {A R : Type} (h : String → A → Except String R) :
    List (ToolCall A) → List (AMessage A R) × Option String
  | [] => ([], none)
  | tc :: rest =>
    match exec_tool_call h tc with
    | .error e => ([], some e)
    | .ok m =>
      let (ms, ab) := run_tool_batch h rest
      (m :: ms, ab)

/-- A sequence of `check_rate_limit` calls for one user at the given
timestamps; collects the outcomes in order and threads the store. -/
def memChecks (user_id user_role : String) :
    List Nat → MemStore → List RLOutcome × MemStore
  | [], s => ([], s)
  | t :: ts, s =>
    let (o, s') := check_rate_limit_mem s t user_id user_role
    let (os, s'') := memChecks user_id user_role ts s'
    (o :: os, s'')

/-- Redis-path analogue of `memChecks`. -/
def redisChecks (user_id user_role : String) :
    List Nat → RedisState → List RLOutcome × RedisState
  | [], s => ([], s)
  | t :: ts, s =>
    let (o, s') := check_rate_limit_redis s t user_id user_role
    let (os, s'') := redisChecks user_id user_role ts s'
    (o :: os, s'')

/-- One call against the quota controller: a `check_rate_limit` or a
`grant_quota_boost`. -/
inductive QOp where
  | check (user_id user_role : String)
  | grant (user_id : String) (additional_messages : Nat)

/-- Run a timestamped operation sequence on the Redis path, collecting
the outcome of every check. -/
def runRedis (s : RedisState) : List (QOp × Nat) → List RLOutcome × RedisState
  | [] => ([], s)
  | (.check uid role, t) :: rest =>
    let (o, s') := check_rate_limit_redis s t uid role
    let (os, s'') := runRedis s' rest
    (o :: os, s'')
  | (.grant uid n, t) :: rest => runRedis (grant_quota_boost_redis s t uid n) rest

/-- Run a timestamped operation sequence on the in-memory fallback path,
collecting the outcome of every check. -/
def runMem (s : MemStore) : List (QOp × Nat) → List RLOutcome × MemStore
  | [] => ([], s)
  | (.check uid role, t) :: rest =>
    let (o, s') := check_rate_limit_mem s t uid role
    let (os, s'') := runMem s' rest
    (o :: os, s'')
  | (.grant uid n, t) :: rest => runMem (grant_quota_boost_mem s t uid n) rest

/-! ## Abstractions used in the statements -/

/-- The effective limit visible in a `check_rate_limit` outcome (the
`limit` field of the success dict, or the limit carried by the 429). -/
def RLOutcome.totalLimit : RLOutcome → Option Nat
  | .exempt => none
  | .ok r => some r.limit
  | .http429 l => some l

/-- The counter value the Redis path holds for `(user, day)`: either no
key yet (count 0) or a key that stays live for the whole of day `d`. -/
def redisDayCount (s : RedisState) (user_id : String) (d c : Nat) : Prop :=
  (c = 0 ∧ alookup (user_id, d) s.counters = none) ∨
  (∃ e, alookup (user_id, d) s.counters = some (c, e) ∧ (d + 1) * 86400 ≤ e)

/-- The bonus read by the Redis path is `b` at every instant of day `d`
(no grant and no bonus expiry happens mid-day). -/
def redisBonusAllDay (s : RedisState) (user_id : String) (d b : Nat) : Prop :=
  ∀ t, dayOf t = d → redisBonus s t user_id = b

/-- The raw stored bonus value on the Redis path, expiry ignored. -/
def redisBonusVal (s : RedisState) (user_id : String) : Nat :=
  match alookup user_id s.bonuses with
  | some (b, _) => b
  | none => 0

/-- Day-`d` count seen by the memory path for a user. -/
def memCount (s : MemStore) (user_id : String) (d : Nat) : Nat :=
  (memToday s user_id d).count

/-- Day-`d` bonus seen by the memory path for a user. -/
def memBonus (s : MemStore) (user_id : String) (d : Nat) : Nat :=
  (memToday s user_id d).bonus

/-- The raw counter value the Redis path holds for `(user, day)`,
expiry ignored (0 when the key is absent). -/
def redisCounterVal (s : RedisState) (user_id : String) (d : Nat) : Nat :=
  match alookup (user_id, d) s.counters with
  | some (c, _) => c
  | none => 0

/-- Correspondence between the two quota stores while all traffic stays
within day `d`, as set up from empty stores by day-`d` traffic: memory
records are dated `d`, redis keys stay live to the end of day `d`, and
the two paths hold the same per-user count and bonus. -/
structure PathSync (sr : RedisState) (sm : MemStore) (d : Nat) : Prop where
  dates : ∀ uid e, alookup uid sm = some e → e.date = d
  counter_live : ∀ uid c e, alookup (uid, d) sr.counters = some (c, e) →
    (d + 1) * 86400 ≤ e
  bonus_live : ∀ uid b e, alookup uid sr.bonuses = some (b, e) → (d + 1) * 86400 ≤ e
  count_eq : ∀ uid, memCount sm uid d = redisCounterVal sr uid d
  bonus_eq : ∀ uid, memBonus sm uid d = redisBonusVal sr uid

/-! ## Concrete instances used by witnesses and counterexamples -/

/-- A redis client whose every call raises. -/
def failingKV : RedisKV :=
  ⟨fun _ => .error "connection refused", fun _ _ _ => .error "connection refused"⟩

/-- A `CacheService` on a redis backend whose client always raises. -/
def failingBackend : CSBackend Nat :=
  .redis failingKV (fun _ => .ok 0) (fun _ => .ok "0")

/-- The single-day operation sequence used to witness the path
equivalence: one grant and two checks, all on day 0. -/
def eqOpsOneDay : List (QOp × Nat) :=
  [(.grant "77" 10, 100), (.check "77" "farmer", 200), (.check "77" "Admin", 300)]

/-- A tool handler that always succeeds (payload type `Unit`). -/
def okHandler : String → Unit → Except String Unit := fun _ _ => .ok ()

/-- A tool call whose `function.arguments` string is not valid JSON, so
`json.loads` raises. -/
def badCall : ToolCall Unit :=
  ⟨"call_1", "get_weather", .error "Expecting value: line 1 column 1 (char 0)"⟩

/-- A two-request batch with parseable arguments: one known tool, one
unknown name. -/
def wBatch : List (ToolCall Unit) :=
  [⟨"call_1", "get_fields", .ok ()⟩, ⟨"call_2", "nope", .ok ()⟩]

/-- A grant of 1 bonus message on day 0 followed by six checks on
day 1: the two store paths decide the sixth check differently. -/
def divergingOps : List (QOp × Nat) :=
  [(.grant "77" 1, 0),
   (.check "77" "farmer", 86400), (.check "77" "farmer", 86400),
   (.check "77" "farmer", 86400), (.check "77" "farmer", 86400),
   (.check "77" "farmer", 86400), (.check "77" "farmer", 86400)]

/-! # Theorems -/

/-! ## Association-list lemmas -/

theorem alookup_aset_self {α β : Type} [DecidableEq α] (k : α) (v : β) (l : List (α × β)) :
    alookup k (aset k v l) = some v := by
  induction l with
  | nil => simp [alookup, aset]
  | cons hd tl ih =>
    obtain ⟨a, b⟩ := hd
    by_cases h : a = k
    · simp [alookup, aset, h]
    · simp [alookup, aset, h, ih]

theorem alookup_aset_ne {α β : Type} [DecidableEq α] (k k' : α) (v : β) (l : List (α × β))
    (h : k ≠ k') : alookup k' (aset k v l) = alookup k' l := by
  induction l with
  | nil => simp [alookup, aset, h]
  | cons hd tl ih =>
    obtain ⟨a, b⟩ := hd
    by_cases ha : a = k
    · subst ha
      simp [alookup, aset, h]
    · simp [alookup, aset, ha, ih]

theorem alookup_adel_self {α β : Type} [DecidableEq α] (k : α) (l : List (α × β))
    (h : (l.map Prod.fst).Nodup) : alookup k (adel k l) = none := by
  induction l with
  | nil => simp [alookup, adel]
  | cons hd tl ih =>
    obtain ⟨a, b⟩ := hd
    simp only [List.map_cons, List.nodup_cons] at h
    by_cases ha : a = k
    · subst ha
      simp only [adel, if_pos rfl]
      -- `a` does not occur among the keys of `tl`, so the lookup misses
      clear ih
      induction tl with
      | nil => simp [alookup]
      | cons hd' tl' ih' =>
        obtain ⟨a', b'⟩ := hd'
        simp only [List.map_cons, List.mem_cons, List.nodup_cons] at h
        have hne : a' ≠ a := fun hcontra => h.1 (Or.inl hcontra.symm)
        simp only [alookup, if_neg hne]
        exact ih' ⟨fun hm => h.1 (Or.inr hm), h.2.2⟩
    · simp only [adel, if_neg ha, alookup, if_neg ha]
      exact ih h.2

/-! ## C5 — in-memory cache TTL boundary -/

/-- **C5 counterexample.**  The claim says a read at or after `t`
seconds behaves like a miss; but an entry written at time 0 with
`ttl_seconds = 10` is still returned by a read at time exactly 10
(`entry['expires'] < time.time()` is a strict comparison). -/
theorem imc_read_at_expiry_returns_value :
    (imc_get_json (imc_set_json ([] : InMemStore String Nat) 0 "k" 42 10) 10 "k").1 = some 42 ∧
    (imc_get_json (imc_set_json ([] : InMemStore String Nat) 0 "k" 42 10) 10 "k").1 ≠ none := by
  decide

/-- **C5 (amended).**  An entry written by `set_json` at time `now` with
TTL `ttl` is returned by any `get_json` at a time `≤ now + ttl` and is a
miss for any read strictly after `now + ttl`; an expired entry's data is
never returned. -/
theorem imc_ttl_semantics {K V : Type} [DecidableEq K]
    (s : InMemStore K V) (now : Nat) (key : K) (v : V) (ttl nowR : Nat) :
    (nowR ≤ now + ttl →
      (imc_get_json (imc_set_json s now key v ttl) nowR key).1 = some v) ∧
    (now + ttl < nowR →
      (imc_get_json (imc_set_json s now key v ttl) nowR key).1 = none) := by
  constructor
  · intro h
    simp only [imc_get_json, imc_set_json, alookup_aset_self]
    rw [if_neg (by omega)]
  · intro h
    simp only [imc_get_json, imc_set_json, alookup_aset_self]
    rw [if_pos (by omega)]

/-- Witness for `imc_ttl_semantics` at a concrete store and times. -/
theorem imc_ttl_semantics_witness :
    (imc_get_json (imc_set_json ([] : InMemStore String Nat) 100 "k" 7 60) 159 "k").1 = some 7 ∧
    (imc_get_json (imc_set_json ([] : InMemStore String Nat) 100 "k" 7 60) 161 "k").1 = none :=
  ⟨(imc_ttl_semantics [] 100 "k" 7 60 159).1 (by decide),
   (imc_ttl_semantics [] 100 "k" 7 60 161).2 (by decide)⟩

/-! ## C7 — cache service never raises -/

/-- **C7.**  `CacheService.get_json` and `CacheService.set_json` always
return normally (`Except.ok`) for every backend, key and value: a
backing-store failure on read degrades to a miss (`none`) and a failure
on write (serialisation included) leaves the service returning normally
with the backend unchanged. -/
theorem cache_service_never_raises {V : Type} (b : CSBackend V) (now : Nat)
    (key : String) (value : V) (ttl : Nat) :
    (∃ res, cs_get_json b now key = .ok res) ∧
    (∃ b', cs_set_json b now key value ttl = .ok b') ∧
    (∀ (r : RedisKV) (loads : String → Except String V) (dumps : V → Except String String)
      (e : String), r.get key = .error e →
      cs_get_json (.redis r loads dumps) now key = .ok (none, .redis r loads dumps)) ∧
    (∀ (r : RedisKV) (loads : String → Except String V) (dumps : V → Except String String)
      (payload e : String), dumps value = .ok payload →
      r.setex key ttl payload = .error e →
      cs_set_json (.redis r loads dumps) now key value ttl = .ok (.redis r loads dumps)) := by
  refine ⟨?_, ?_, ?_, ?_⟩
  · cases b with
    | redis r loads dumps =>
      cases hg : r.get key with
      | error e => exact ⟨(none, .redis r loads dumps), by simp [cs_get_json, hg]⟩
      | ok d =>
        cases d with
        | none => exact ⟨(none, .redis r loads dumps), by simp [cs_get_json, hg]⟩
        | some data =>
          cases hl : loads data with
          | error e => exact ⟨(none, .redis r loads dumps), by simp [cs_get_json, hg, hl]⟩
          | ok v => exact ⟨(some v, .redis r loads dumps), by simp [cs_get_json, hg, hl]⟩
    | memory s => exact ⟨_, rfl⟩
  · cases b with
    | redis r loads dumps =>
      cases hd : dumps value with
      | error e => exact ⟨.redis r loads dumps, by simp [cs_set_json, hd]⟩
      | ok payload =>
        cases hs : r.setex key ttl payload with
        | error e => exact ⟨.redis r loads dumps, by simp [cs_set_json, hd, hs]⟩
        | ok u => exact ⟨.redis r loads dumps, by simp [cs_set_json, hd, hs]⟩
    | memory s => exact ⟨_, rfl⟩
  · intro r loads dumps e hg
    simp [cs_get_json, hg]
  · intro r loads dumps payload e hd hs
    simp [cs_set_json, hd, hs]

/-- Witness for `cache_service_never_raises` on a backend whose redis
client always raises. -/
theorem cache_service_never_raises_witness :
    cs_get_json failingBackend 0 "weather:1:2" = .ok (none, failingBackend) ∧
    (∃ b', cs_set_json failingBackend 0 "weather:1:2" 3 60 = .ok b') :=
  ⟨(cache_service_never_raises failingBackend 0 "weather:1:2" 3 60).2.2.1
      failingKV _ _ "connection refused" rfl,
   (cache_service_never_raises failingBackend 0 "weather:1:2" 3 60).2.1⟩

/-! ## C10 — weather tool cache discipline -/

/-- **C10.**  If the weather key misses in the cache and the upstream
fetch raises with message `e`, `get_weather_forecast` returns the
`{"error": "Weather service unavailable", "details": e}` object and the
cache is exactly the post-lookup cache (no write happened); in
particular every later read of that key still misses, so the failure is
never replayed from cache. -/
theorem weather_no_cache_write_on_upstream_error (cache : WeatherCache) (now : Nat)
    (e : String) (lat lon : ℚ) (hnodup : (cache.map Prod.fst).Nodup)
    (hmiss : (imc_get_json cache now (weather_cache_key lat lon)).1 = none) :
    get_weather_forecast cache now (.error e) lat lon =
      (.errObj "Weather service unavailable" e,
        (imc_get_json cache now (weather_cache_key lat lon)).2) ∧
    ∀ nowR, (imc_get_json (get_weather_forecast cache now (.error e) lat lon).2 nowR
      (weather_cache_key lat lon)).1 = none := by
  rcases hg : imc_get_json cache now (weather_cache_key lat lon) with ⟨r1, c'⟩
  rw [hg] at hmiss
  simp only at hmiss
  subst hmiss
  have hrun : get_weather_forecast cache now (.error e) lat lon =
      (.errObj "Weather service unavailable" e, c') := by
    simp only [get_weather_forecast, hg]
  have hkey : alookup (weather_cache_key lat lon) c' = none := by
    rcases halo : alookup (weather_cache_key lat lon) cache with _ | entry
    · simp only [imc_get_json, halo, Prod.mk.injEq, true_and] at hg
      rw [← hg]
      exact halo
    · by_cases hexp : entry.expires < now
      · simp only [imc_get_json, halo, if_pos hexp, Prod.mk.injEq, true_and] at hg
        rw [← hg]
        exact alookup_adel_self _ _ hnodup
      · simp only [imc_get_json, halo, if_neg hexp, Prod.mk.injEq] at hg
        exact absurd hg.1 (by simp)
  refine ⟨by simp [hrun, hg], ?_⟩
  intro nowR
  rw [hrun]
  simp only [imc_get_json, hkey]

/-- Witness for `weather_no_cache_write_on_upstream_error`: a cache
holding an expired entry for the key, an upstream failure at time 5. -/
theorem weather_no_cache_write_on_upstream_error_witness :
    get_weather_forecast [(("weather", 0, 0), ⟨⟨0, 0, ⟨[], [], [], [], []⟩, []⟩, 2⟩)] 5
      (.error "timeout") 0 0 =
      (.errObj "Weather service unavailable" "timeout", []) ∧
    (imc_get_json (get_weather_forecast
        [(("weather", 0, 0), ⟨⟨0, 0, ⟨[], [], [], [], []⟩, []⟩, 2⟩)] 5
        (.error "timeout") 0 0).2 99999 ("weather", 0, 0)).1 = none := by
  have hk : weather_cache_key 0 0 = ("weather", 0, 0) := by
    norm_num [weather_cache_key, pyRound2]
  have h := weather_no_cache_write_on_upstream_error
    [(("weather", 0, 0), ⟨⟨0, 0, ⟨[], [], [], [], []⟩, []⟩, 2⟩)] 5 "timeout" 0 0
    (by simp) (by rw [hk]; decide)
  constructor
  · rw [h.1, hk]
    decide
  · have h2 := h.2 99999
    rw [hk] at h2
    exact h2
/-! ## Quota controller lemmas -/

theorem quotaVerdict_ok (c b : Nat) (h : c ≤ RATE_LIMIT_PER_DAY + b) :
    quotaVerdict c b =
      .ok ⟨RATE_LIMIT_PER_DAY + b, RATE_LIMIT_PER_DAY + b - c, b⟩ := by
  unfold quotaVerdict
  rw [if_neg (by omega)]

theorem quotaVerdict_reject (c b : Nat) (h : RATE_LIMIT_PER_DAY + b < c) :
    quotaVerdict c b = .http429 (RATE_LIMIT_PER_DAY + b) := by
  unfold quotaVerdict
  rw [if_pos (by omega)]

theorem memToday_of_lookup (s : MemStore) (uid : String) (d c b : Nat)
    (h : alookup uid s = some ⟨d, c, b⟩) : memToday s uid d = ⟨d, c, b⟩ := by
  simp [memToday, h]

theorem memToday_aset_same (s : MemStore) (uid : String) (d : Nat) (e : MemEntry)
    (hd : e.date = d) : memToday (aset uid e s) uid d = e := by
  simp [memToday, alookup_aset_self, hd]

theorem check_mem_admin (s : MemStore) (now : Nat) (uid role : String)
    (hrole : isAdminRole role = true) :
    check_rate_limit_mem s now uid role = (.exempt, s) := by
  simp [check_rate_limit_mem, hrole]

theorem check_redis_admin (s : RedisState) (now : Nat) (uid role : String)
    (hrole : isAdminRole role = true) :
    check_rate_limit_redis s now uid role = (.exempt, s) := by
  simp [check_rate_limit_redis, hrole]

theorem check_mem_nonadmin (s : MemStore) (now : Nat) (uid role : String) (c b : Nat)
    (hrole : isAdminRole role = false)
    (hm : memToday s uid (dayOf now) = ⟨dayOf now, c, b⟩) :
    check_rate_limit_mem s now uid role =
      (quotaVerdict (c + 1) b, aset uid ⟨dayOf now, c + 1, b⟩ s) := by
  simp [check_rate_limit_mem, hrole, hm]

/-- `memChecks` under a constant day: each check observes the previous
count plus one, with the bonus untouched. -/
theorem memChecks_spec (uid role : String) (d b : Nat) (hrole : isAdminRole role = false) :
    ∀ (ts : List Nat) (s : MemStore) (c : Nat), (∀ t ∈ ts, dayOf t = d) →
    memToday s uid d = ⟨d, c, b⟩ →
    ((memChecks uid role ts s).1.length = ts.length ∧
      ∀ i, i < ts.length →
        (memChecks uid role ts s).1.get? i = some (quotaVerdict (c + i + 1) b)) ∧
    memToday (memChecks uid role ts s).2 uid d = ⟨d, c + ts.length, b⟩ := by
  intro ts
  induction ts with
  | nil =>
    intro s c _ hm
    refine ⟨⟨rfl, by intro i hi; exact absurd hi (by simp)⟩, ?_⟩
    simpa using hm
  | cons t ts ih =>
    intro s c hday hm
    have hd : dayOf t = d := hday t (List.mem_cons_self t ts)
    have hstep := check_mem_nonadmin s t uid role c b hrole (by rw [hd]; exact hm)
    have hm1 : memToday (aset uid (⟨dayOf t, c + 1, b⟩ : MemEntry) s) uid d =
        ⟨d, c + 1, b⟩ := by
      rw [hd]
      exact memToday_aset_same s uid d ⟨d, c + 1, b⟩ rfl
    have ihh := ih (aset uid ⟨dayOf t, c + 1, b⟩ s) (c + 1)
      (fun t' ht' => hday t' (List.mem_cons_of_mem _ ht')) hm1
    have hrun : memChecks uid role (t :: ts) s =
        (quotaVerdict (c + 1) b :: (memChecks uid role ts (aset uid ⟨dayOf t, c + 1, b⟩ s)).1,
         (memChecks uid role ts (aset uid ⟨dayOf t, c + 1, b⟩ s)).2) := by
      simp only [memChecks, hstep]
    refine ⟨⟨?_, ?_⟩, ?_⟩
    · rw [hrun]
      simp [ihh.1.1]
    · intro i hi
      rw [hrun]
      match i with
      | 0 => simp
      | i + 1 =>
        have hi' : i < ts.length := by simpa using hi
        have := ihh.1.2 i hi'
        simp only [List.get?_cons_succ]
        rw [this]
        congr 2
        omega
    · rw [hrun]
      have heq : c + (t :: ts).length = c + 1 + ts.length := by
        simp only [List.length_cons]
        omega
      rw [heq]
      exact ihh.2

theorem redisBonus_congr {s s' : RedisState} (h : s'.bonuses = s.bonuses)
    (now : Nat) (uid : String) : redisBonus s' now uid = redisBonus s now uid := by
  unfold redisBonus
  rw [h]

theorem check_redis_preserves_bonuses (s : RedisState) (now : Nat) (uid role : String) :
    (check_rate_limit_redis s now uid role).2.bonuses = s.bonuses := by
  unfold check_rate_limit_redis redisIncrCounter
  by_cases hrole : isAdminRole role
  · simp [hrole]
  · simp only [hrole, Bool.false_eq_true, if_false]
    rcases halo : alookup (uid, dayOf now) s.counters with _ | ⟨c, e⟩
    · simp [halo]
    · by_cases hlive : now < e
      · simp [halo, hlive]
      · simp [halo, hlive]

/-- A timestamp's day brackets it: `d * 86400 ≤ t < (d + 1) * 86400`. -/
theorem dayOf_bracket (t : Nat) : dayOf t * 86400 ≤ t ∧ t < (dayOf t + 1) * 86400 := by
  unfold dayOf
  omega

/-- One non-admin Redis-path check: the counter for today goes from `c`
to `c + 1` and stays live for the rest of the day, the verdict uses the
current bonus, and nothing else in the store changes. -/
theorem check_redis_nonadmin (s : RedisState) (now : Nat) (uid role : String) (c : Nat)
    (hrole : isAdminRole role = false) (hday : redisDayCount s uid (dayOf now) c) :
    (check_rate_limit_redis s now uid role).1 =
      quotaVerdict (c + 1) (redisBonus s now uid) ∧
    redisDayCount (check_rate_limit_redis s now uid role).2 uid (dayOf now) (c + 1) ∧
    (check_rate_limit_redis s now uid role).2.bonuses = s.bonuses ∧
    (∀ k, k ≠ (uid, dayOf now) →
      alookup k (check_rate_limit_redis s now uid role).2.counters =
        alookup k s.counters) := by
  have hbr := dayOf_bracket now
  rcases hday with ⟨hc0, halo⟩ | ⟨e, halo, hle⟩
  · subst hc0
    have hrun : check_rate_limit_redis s now uid role =
        (quotaVerdict 1 (redisBonus s now uid),
         { s with counters := aset (uid, dayOf now) (1, now + 86400) s.counters }) := by
      unfold check_rate_limit_redis redisIncrCounter
      simp only [hrole, Bool.false_eq_true, if_false, halo]
      exact congrArg (fun b => (quotaVerdict 1 b, _)) (redisBonus_congr rfl now uid)
    refine ⟨by rw [hrun], ?_, by rw [hrun], ?_⟩
    · rw [hrun]
      exact Or.inr ⟨now + 86400, alookup_aset_self _ _ _, by omega⟩
    · intro k hk
      rw [hrun]
      exact alookup_aset_ne _ _ _ _ (fun h => hk h.symm)
  · have hlive : now < e := by omega
    have hrun : check_rate_limit_redis s now uid role =
        (quotaVerdict (c + 1) (redisBonus s now uid),
         { s with counters := aset (uid, dayOf now) (c + 1, e) s.counters }) := by
      unfold check_rate_limit_redis redisIncrCounter
      simp only [hrole, Bool.false_eq_true, if_false, halo, hlive, if_pos]
      exact congrArg (fun b => (quotaVerdict (c + 1) b, _)) (redisBonus_congr rfl now uid)
    refine ⟨by rw [hrun], ?_, by rw [hrun], ?_⟩
    · rw [hrun]
      exact Or.inr ⟨e, alookup_aset_self _ _ _, hle⟩
    · intro k hk
      rw [hrun]
      exact alookup_aset_ne _ _ _ _ (fun h => hk h.symm)

/-- `redisChecks` under a constant day with a stable bonus. -/
theorem redisChecks_spec (uid role : String) (d b : Nat) (hrole : isAdminRole role = false) :
    ∀ (ts : List Nat) (s : RedisState) (c : Nat), (∀ t ∈ ts, dayOf t = d) →
    redisDayCount s uid d c → redisBonusAllDay s uid d b →
    ((redisChecks uid role ts s).1.length = ts.length ∧
      ∀ i, i < ts.length →
        (redisChecks uid role ts s).1.get? i = some (quotaVerdict (c + i + 1) b)) ∧
    redisDayCount (redisChecks uid role ts s).2 uid d (c + ts.length) ∧
    (redisChecks uid role ts s).2.bonuses = s.bonuses := by
  intro ts
  induction ts with
  | nil =>
    intro s c _ hday _
    exact ⟨⟨rfl, by intro i hi; exact absurd hi (by simp)⟩, by simpa using hday, rfl⟩
  | cons t ts ih =>
    intro s c hts hday hbon
    have hd : dayOf t = d := hts t (List.mem_cons_self t ts)
    have hstep := check_redis_nonadmin s t uid role c hrole (by rw [hd]; exact hday)
    have hbval : redisBonus s t uid = b := hbon t hd
    set s1 := (check_rate_limit_redis s t uid role).2 with hs1
    have hday1 : redisDayCount s1 uid d (c + 1) := by
      rw [← hd]; exact hstep.2.1
    have hbon1 : redisBonusAllDay s1 uid d b := by
      intro t' ht'
      rw [redisBonus_congr hstep.2.2.1 t' uid]
      exact hbon t' ht'
    have ihh := ih s1 (c + 1) (fun t' ht' => hts t' (List.mem_cons_of_mem _ ht')) hday1 hbon1
    have hrun : redisChecks uid role (t :: ts) s =
        ((check_rate_limit_redis s t uid role).1 :: (redisChecks uid role ts s1).1,
         (redisChecks uid role ts s1).2) := by
      simp only [redisChecks]
    refine ⟨⟨?_, ?_⟩, ?_, ?_⟩
    · rw [hrun]
      simp [ihh.1.1]
    · intro i hi
      rw [hrun]
      match i with
      | 0 =>
        simp only [List.get?_cons_zero, hstep.1, hbval]
      | i + 1 =>
        have hi' : i < ts.length := by simpa using hi
        have := ihh.1.2 i hi'
        simp only [List.get?_cons_succ]
        rw [this]
        congr 2
        omega
    · rw [hrun]
      have heq : c + (t :: ts).length = c + 1 + ts.length := by
        simp only [List.length_cons]
        omega
      rw [heq]
      exact ihh.2.1
    · rw [hrun]
      rw [ihh.2.2]
      exact hstep.2.2.1

theorem quotaVerdict_totalLimit (c b : Nat) :
    (quotaVerdict c b).totalLimit = some (RATE_LIMIT_PER_DAY + b) := by
  unfold quotaVerdict RLOutcome.totalLimit
  by_cases h : c > RATE_LIMIT_PER_DAY + b
  · rw [if_pos h]
  · rw [if_neg h]

theorem check_redis_totalLimit (s : RedisState) (now : Nat) (uid role : String)
    (hrole : isAdminRole role = false) :
    (check_rate_limit_redis s now uid role).1.totalLimit =
      some (RATE_LIMIT_PER_DAY + redisBonus s now uid) := by
  unfold check_rate_limit_redis redisIncrCounter
  simp only [hrole, Bool.false_eq_true, if_false]
  rcases halo : alookup (uid, dayOf now) s.counters with _ | ⟨c, e⟩
  · simp only
    rw [redisBonus_congr rfl]
    exact quotaVerdict_totalLimit 1 _
  · by_cases hlive : now < e
    · simp only [hlive, if_pos]
      rw [redisBonus_congr rfl]
      exact quotaVerdict_totalLimit (c + 1) _
    · simp only [hlive, if_neg, if_false]
      rw [redisBonus_congr rfl]
      exact quotaVerdict_totalLimit 1 _

theorem redisBonus_after_grant (s : RedisState) (t : Nat) (uid : String) (b now : Nat) :
    redisBonus (grant_quota_boost_redis s t uid b) now uid =
      if now < t + 86400 * 30 then b else 0 := by
  unfold redisBonus grant_quota_boost_redis
  simp only [alookup_aset_self]

theorem grant_mem_bonus (s : MemStore) (t : Nat) (uid : String) (b : Nat) :
    (alookup uid (grant_quota_boost_mem s t uid b)).map MemEntry.bonus = some b := by
  unfold grant_quota_boost_mem
  rcases h : alookup uid s with _ | e
  · simp [alookup_aset_self]
  · simp [alookup_aset_self]

/-! ## C1 — daily limit enforcement and admin exemption -/

/-- **C1.**  Admin roles are exempt with the store untouched on both
paths; a non-admin user whose day-`d` count starts at 0 with a stable
bonus `b` gets `RATE_LIMIT_PER_DAY + b` admitted checks that day, and
the very next check raises HTTP 429 carrying that effective limit. -/
theorem quota_daily_limit_and_admin_exemption :
    (∀ (sm : MemStore) (sr : RedisState) (now : Nat) (uid role : String),
      isAdminRole role = true →
      check_rate_limit_mem sm now uid role = (.exempt, sm) ∧
      check_rate_limit_redis sr now uid role = (.exempt, sr)) ∧
    (∀ (uid role : String) (d b : Nat) (ts : List Nat) (s : MemStore),
      isAdminRole role = false → (∀ t ∈ ts, dayOf t = d) →
      memToday s uid d = ⟨d, 0, b⟩ →
      ts.length = RATE_LIMIT_PER_DAY + b + 1 →
      (∀ i, i < RATE_LIMIT_PER_DAY + b →
        (memChecks uid role ts s).1.get? i =
          some (.ok ⟨RATE_LIMIT_PER_DAY + b, RATE_LIMIT_PER_DAY + b - (i + 1), b⟩)) ∧
      (memChecks uid role ts s).1.get? (RATE_LIMIT_PER_DAY + b) =
        some (.http429 (RATE_LIMIT_PER_DAY + b))) ∧
    (∀ (uid role : String) (d b : Nat) (ts : List Nat) (s : RedisState),
      isAdminRole role = false → (∀ t ∈ ts, dayOf t = d) →
      redisDayCount s uid d 0 → redisBonusAllDay s uid d b →
      ts.length = RATE_LIMIT_PER_DAY + b + 1 →
      (∀ i, i < RATE_LIMIT_PER_DAY + b →
        (redisChecks uid role ts s).1.get? i =
          some (.ok ⟨RATE_LIMIT_PER_DAY + b, RATE_LIMIT_PER_DAY + b - (i + 1), b⟩)) ∧
      (redisChecks uid role ts s).1.get? (RATE_LIMIT_PER_DAY + b) =
        some (.http429 (RATE_LIMIT_PER_DAY + b))) := by
  refine ⟨?_, ?_, ?_⟩
  · intro sm sr now uid role hrole
    exact ⟨check_mem_admin sm now uid role hrole, check_redis_admin sr now uid role hrole⟩
  · intro uid role d b ts s hrole hday hm hlen
    have h := memChecks_spec uid role d b hrole ts s 0 hday hm
    constructor
    · intro i hi
      have := h.1.2 i (by omega)
      rw [this]
      rw [show 0 + i + 1 = i + 1 by omega]
      rw [quotaVerdict_ok (i + 1) b (by omega)]
    · have := h.1.2 (RATE_LIMIT_PER_DAY + b) (by omega)
      rw [this]
      rw [show 0 + (RATE_LIMIT_PER_DAY + b) + 1 = RATE_LIMIT_PER_DAY + b + 1 by omega]
      rw [quotaVerdict_reject (RATE_LIMIT_PER_DAY + b + 1) b (by omega)]
  · intro uid role d b ts s hrole hday hcnt hbon hlen
    have h := redisChecks_spec uid role d b hrole ts s 0 hday hcnt hbon
    constructor
    · intro i hi
      have := h.1.2 i (by omega)
      rw [this]
      rw [show 0 + i + 1 = i + 1 by omega]
      rw [quotaVerdict_ok (i + 1) b (by omega)]
    · have := h.1.2 (RATE_LIMIT_PER_DAY + b) (by omega)
      rw [this]
      rw [show 0 + (RATE_LIMIT_PER_DAY + b) + 1 = RATE_LIMIT_PER_DAY + b + 1 by omega]
      rw [quotaVerdict_reject (RATE_LIMIT_PER_DAY + b + 1) b (by omega)]

/-- Witness for `quota_daily_limit_and_admin_exemption`: an admin check
on each path, and six same-day checks of user "77" with bonus 0 on each
path, the sixth being the 429. -/
theorem quota_daily_limit_witness :
    check_rate_limit_mem [] 0 "77" "Admin" = (.exempt, []) ∧
    (memChecks "77" "farmer" [0, 0, 0, 0, 0, 0] []).1.get? 0 = some (.ok ⟨5, 4, 0⟩) ∧
    (memChecks "77" "farmer" [0, 0, 0, 0, 0, 0] []).1.get? 5 = some (.http429 5) ∧
    (redisChecks "77" "farmer" [0, 0, 0, 0, 0, 0] ⟨[], []⟩).1.get? 5 = some (.http429 5) := by
  have hadm := (quota_daily_limit_and_admin_exemption.1 [] ⟨[], []⟩ 0 "77" "Admin"
    (by decide)).1
  have hmem := quota_daily_limit_and_admin_exemption.2.1 "77" "farmer" 0 0
    [0, 0, 0, 0, 0, 0] [] (by decide) (by decide) (by decide) (by decide)
  have hred := quota_daily_limit_and_admin_exemption.2.2 "77" "farmer" 0 0
    [0, 0, 0, 0, 0, 0] ⟨[], []⟩ (by decide) (by decide) (Or.inl ⟨rfl, rfl⟩)
    (fun t _ => rfl) (by decide)
  exact ⟨hadm, hmem.1 0 (by decide), hmem.2, hred.2⟩

/-! ## C3 — bonus persistence across the daily reset -/

/-- **C3 counterexample.**  On the in-memory fallback path a bonus of 10
granted on day 0 does NOT survive into day 1: the first check of day 1
resets the record (bonus included), so the effective limit is 5, not 15,
and the stored bonus becomes 0. -/
theorem mem_day_rollover_drops_bonus :
    check_rate_limit_mem [("77", ⟨0, 3, 10⟩)] 86400 "77" "farmer" =
      (.ok ⟨5, 4, 0⟩, [("77", ⟨1, 1, 0⟩)]) ∧
    RATE_LIMIT_PER_DAY + 10 ≠ 5 := by
  decide

/-- **C3 (amended).**  On the Redis path, checks never write the bonus
key, and after a grant of `b` every non-admin check strictly before the
grant's 30-day expiry sees the effective limit `RATE_LIMIT_PER_DAY + b`
(a new day merely starts a new counter key).  On the in-memory fallback
the same holds only while the stored record's date is still today: the
bonus survives checks within the day but is zeroed by the first check of
a new day. -/
theorem bonus_persistence :
    (∀ (s : RedisState) (now : Nat) (uid role : String),
      (check_rate_limit_redis s now uid role).2.bonuses = s.bonuses) ∧
    (∀ (s : RedisState) (tg : Nat) (uid : String) (b now : Nat) (role : String),
      now < tg + 86400 * 30 → isAdminRole role = false →
      (check_rate_limit_redis (grant_quota_boost_redis s tg uid b) now uid role).1.totalLimit =
        some (RATE_LIMIT_PER_DAY + b)) ∧
    (∀ (s : MemStore) (now : Nat) (uid role : String) (c b : Nat),
      isAdminRole role = false → memToday s uid (dayOf now) = ⟨dayOf now, c, b⟩ →
      (check_rate_limit_mem s now uid role).1.totalLimit = some (RATE_LIMIT_PER_DAY + b) ∧
      (memToday (check_rate_limit_mem s now uid role).2 uid (dayOf now)).bonus = b) := by
  refine ⟨check_redis_preserves_bonuses, ?_, ?_⟩
  · intro s tg uid b now role hexp hrole
    have hlim := check_redis_totalLimit (grant_quota_boost_redis s tg uid b) now uid role hrole
    rw [hlim, redisBonus_after_grant, if_pos hexp]
  · intro s now uid role c b hrole hm
    have hstep := check_mem_nonadmin s now uid role c b hrole hm
    constructor
    · rw [hstep]
      exact quotaVerdict_totalLimit (c + 1) b
    · rw [hstep]
      rw [memToday_aset_same s uid (dayOf now) ⟨dayOf now, c + 1, b⟩ rfl]

/-- Witness for `bonus_persistence`: a grant of 10 on day 0 raises the
limit seen on day 1 to 15 on the Redis path; a same-day memory check
keeps bonus 10. -/
theorem bonus_persistence_witness :
    (check_rate_limit_redis (grant_quota_boost_redis ⟨[], []⟩ 0 "77" 10) 86400 "77"
      "farmer").1.totalLimit = some 15 ∧
    (check_rate_limit_mem [("77", ⟨0, 2, 10⟩)] 0 "77" "farmer").1.totalLimit = some 15 :=
  ⟨bonus_persistence.2.1 ⟨[], []⟩ 0 "77" 10 86400 "farmer" (by omega) (by decide),
   (bonus_persistence.2.2 [("77", ⟨0, 2, 10⟩)] 0 "77" "farmer" 2 10 (by decide)
      (by decide)).1⟩

/-! ## C8 — grant overwrite semantics and expiry -/

/-- **C8 counterexample.**  The claim's "30-day expiry ... not reset by
the daily counter's own reset" fails on the in-memory fallback path: a
bonus granted on day 0 is zeroed by the first check of day 1 (and the
memory path records no expiry at all). -/
theorem mem_grant_then_new_day_resets_bonus :
    grant_quota_boost_mem [] 0 "77" 10 = [("77", ⟨0, 0, 10⟩)] ∧
    (check_rate_limit_mem (grant_quota_boost_mem [] 0 "77" 10) 86400 "77" "farmer").2 =
      [("77", ⟨1, 1, 0⟩)] := by
  decide

/-- **C8 (amended).**  Re-granting overwrites rather than accumulates on
both paths (so granting the same amount twice equals granting it once);
on the Redis path each grant installs a fresh 30-day expiry, while the
in-memory fallback stores the bonus without an expiry of its own (and,
per the counterexample, loses it at the next day rollover). -/
theorem grant_overwrites :
    (∀ (s : RedisState) (t1 t2 : Nat) (uid : String) (b1 b2 : Nat),
      alookup uid
        (grant_quota_boost_redis (grant_quota_boost_redis s t1 uid b1) t2 uid b2).bonuses =
        some (b2, t2 + 86400 * 30)) ∧
    (∀ (s : RedisState) (t : Nat) (uid : String) (b now : Nat),
      redisBonus (grant_quota_boost_redis s t uid b) now uid =
        if now < t + 86400 * 30 then b else 0) ∧
    (∀ (s : MemStore) (t1 t2 : Nat) (uid : String) (b1 b2 : Nat),
      (alookup uid (grant_quota_boost_mem (grant_quota_boost_mem s t1 uid b1) t2 uid b2)).map
        MemEntry.bonus = some b2) := by
  refine ⟨?_, ?_, ?_⟩
  · intro s t1 t2 uid b1 b2
    unfold grant_quota_boost_redis
    exact alookup_aset_self _ _ _
  · intro s t uid b now
    exact redisBonus_after_grant s t uid b now
  · intro s t1 t2 uid b1 b2
    exact grant_mem_bonus _ t2 uid b2

/-! ## C2 — agent loop step bound and fallback -/

/-- **C4 counterexample.**  A batch consisting of one request whose
arguments string fails to parse produces zero tool-result messages and
an exception escaping the loop (`json.loads` runs outside the
`try/except`), not the one-per-request `{"error": ...}` message the
claim requires. -/
theorem tool_batch_drops_result_on_bad_args :
    (run_tool_batch okHandler [badCall]).1.length = 0 ∧
    [badCall].length = 1 ∧
    (run_tool_batch okHandler [badCall]).2 =
      some "Expecting value: line 1 column 1 (char 0)" :=
  ⟨rfl, rfl, rfl⟩

/-- **C4 (amended).**  Provided every request's arguments string parses
as JSON, the loop appends exactly one tool-result message per request,
in request order, tagged with the request's call id and tool name; a
handler exception is captured as an `{"error": message}` payload;
duplicate names are just executed per-request.  (A request with
unparseable arguments instead aborts the batch as in the
counterexample.) -/
theorem run_tool_batch_ok {A R : Type} (h : String → A → Except String R) :
    ∀ (tcs : List (ToolCall A)), (∀ tc ∈ tcs, ∃ a, tc.arguments = .ok a) →
      (run_tool_batch h tcs).2 = none ∧
      (run_tool_batch h tcs).1.length = tcs.length ∧
      (∀ i tc, tcs.get? i = some tc → ∀ a, tc.arguments = .ok a →
        (run_tool_batch h tcs).1.get? i =
          some (.tool tc.id tc.name (tool_result_of h tc.name a))) := by
  intro tcs
  induction tcs with
  | nil =>
    intro _
    refine ⟨rfl, rfl, ?_⟩
    intro i tc hget
    simp at hget
  | cons tc tcs ih =>
    intro hargs
    obtain ⟨a0, ha0⟩ := hargs tc (List.mem_cons_self tc tcs)
    have hexec : exec_tool_call h tc =
        .ok (.tool tc.id tc.name (tool_result_of h tc.name a0)) := by
      simp [exec_tool_call, ha0]
    have ihh := ih (fun tc' htc' => hargs tc' (List.mem_cons_of_mem _ htc'))
    have hrun : run_tool_batch h (tc :: tcs) =
        ((.tool tc.id tc.name (tool_result_of h tc.name a0)) :: (run_tool_batch h tcs).1,
         (run_tool_batch h tcs).2) := by
      simp only [run_tool_batch, hexec]
    refine ⟨?_, ?_, ?_⟩
    · rw [hrun]
      exact ihh.1
    · rw [hrun]
      simp [ihh.2.1]
    · intro i tc' hget a ha
      match i with
      | 0 =>
        simp only [List.get?_cons_zero] at hget
        injection hget with hget
        subst hget
        rw [ha] at ha0
        injection ha0 with heq
        subst heq
        rw [hrun]
        rfl
      | i + 1 =>
        simp only [List.get?_cons_succ] at hget
        rw [hrun]
        simp only [List.get?_cons_succ]
        exact ihh.2.2 i tc' hget a ha

theorem tool_batch_results {A R : Type} (h : String → A → Except String R)
    (tcs : List (ToolCall A)) (hargs : ∀ tc ∈ tcs, ∃ a, tc.arguments = .ok a) :
    (run_tool_batch h tcs).2 = none ∧
    (run_tool_batch h tcs).1.length = tcs.length ∧
    (∀ i tc, tcs.get? i = some tc → ∀ a, tc.arguments = .ok a →
      (run_tool_batch h tcs).1.get? i =
        some (.tool tc.id tc.name (tool_result_of h tc.name a))) ∧
    (∀ (name : String) (a : A) (e : String), KNOWN_TOOLS.contains name = true →
      h name a = .error e → tool_result_of h name a = .err e) := by
  have hmain := run_tool_batch_ok h tcs hargs
  refine ⟨hmain.1, hmain.2.1, hmain.2.2, ?_⟩
  intro name a e hknown herr
  unfold tool_result_of
  rw [if_pos hknown, herr]

/-- Witness for `tool_batch_results`: a two-request batch (one known
tool, one unknown name) produces two messages and no abort; the unknown
name is answered with the `{"error": "Unknown tool: ..."}` payload. -/
theorem tool_batch_results_witness :
    (run_tool_batch okHandler wBatch).2 = none ∧
    (run_tool_batch okHandler wBatch).1.length = 2 ∧
    (run_tool_batch okHandler wBatch).1.get? 1 =
      some (.tool "call_2" "nope" (.err "Unknown tool: nope")) := by
  have hw : ∀ tc ∈ wBatch, ∃ a, tc.arguments = Except.ok a := by
    intro tc htc
    rcases htc with _ | ⟨_, htc⟩
    · exact ⟨(), rfl⟩
    · rcases htc with _ | ⟨_, htc⟩
      · exact ⟨(), rfl⟩
      · cases htc
  have h := tool_batch_results okHandler wBatch hw
  refine ⟨h.1, ?_, ?_⟩
  · rw [h.2.1]
    rfl
  · have := h.2.2.1 1 ⟨"call_2", "nope", .ok ()⟩ rfl () rfl
    rw [this]
    rfl

/-! ## C9 — admin usage stats -/

/-- **C9 counterexample.**  With Redis unavailable (`get_redis()` falsy)
`get_usage_stats` returns empty stats and a zero total even though the
in-process fallback store holds a tracked user ("77", count 7) at or
over their effective limit (whose next check is in fact rejected). -/
theorem usage_stats_ignores_memory_fallback :
    get_usage_stats none 100 = ⟨0, [], 0⟩ ∧
    (check_rate_limit_mem [("77", ⟨0, 7, 0⟩)] 100 "77" "farmer").1 = .http429 5 := by
  decide

/-- **C9 (amended).**  On the Redis path the endpoint reports exactly
the users holding a live counter key for today whose count has reached
their effective (base + bonus) limit, each with count, limit and bonus,
and the total equals the number of live today-keys; when Redis is
unavailable it returns an empty list and a zero total, never consulting
the in-process fallback store. -/
theorem usage_stats_spec (s : RedisState) (now : Nat) :
    get_usage_stats none now = ⟨dayOf now, [], 0⟩ ∧
    (get_usage_stats (some s) now).total_users_tracked =
      (s.counters.filter (fun kv => decide (kv.1.2 = dayOf now ∧ now < kv.2.2))).length ∧
    (∀ u, u ∈ (get_usage_stats (some s) now).users_at_limit ↔
      ∃ uid c e, ((uid, dayOf now), (c, e)) ∈ s.counters ∧ now < e ∧
        RATE_LIMIT_PER_DAY + redisBonus s now uid ≤ c ∧
        u = ⟨uid, c, RATE_LIMIT_PER_DAY + redisBonus s now uid, redisBonus s now uid⟩) := by
  refine ⟨rfl, rfl, ?_⟩
  intro u
  constructor
  · intro hu
    simp only [get_usage_stats, List.mem_filterMap, List.mem_filter] at hu
    obtain ⟨⟨⟨uid, d⟩, ⟨c, e⟩⟩, ⟨hmem, hcond⟩, hf⟩ := hu
    simp only [decide_eq_true_eq] at hcond
    obtain ⟨hd, hlive⟩ := hcond
    subst hd
    by_cases hge : c ≥ RATE_LIMIT_PER_DAY + redisBonus s now uid
    · rw [if_pos hge] at hf
      injection hf with hf
      exact ⟨uid, c, e, hmem, hlive, hge, hf.symm⟩
    · rw [if_neg hge] at hf
      cases hf
  · intro ⟨uid, c, e, hmem, hlive, hge, hu⟩
    subst hu
    simp only [get_usage_stats, List.mem_filterMap]
    refine ⟨((uid, dayOf now), (c, e)), ?_, ?_⟩
    · rw [List.mem_filter]
      exact ⟨hmem, by simp [hlive]⟩
    · rw [if_pos hge]

/-- Witness for `usage_stats_spec`: no-redis stats are empty; with one
live counter at count 7 and no bonus, user "77" is reported. -/
theorem usage_stats_spec_witness :
    (get_usage_stats none 42).users_at_limit = [] ∧
    (⟨"77", 7, 5, 0⟩ : UserAtLimit) ∈
      (get_usage_stats (some ⟨[(("77", 0), (7, 86400))], []⟩) 100).users_at_limit := by
  constructor
  · rw [(usage_stats_spec ⟨[], []⟩ 42).1]
  · exact (usage_stats_spec ⟨[(("77", 0), (7, 86400))], []⟩ 100).2.2 ⟨"77", 7, 5, 0⟩ |>.mpr
      ⟨"77", 7, 86400, by decide, by omega, by decide, by decide⟩

/-! ## C6 — equivalence of the Redis and in-memory quota paths -/

theorem memToday_date (sm : MemStore) (uid : String) (d : Nat) :
    (memToday sm uid d).date = d := by
  unfold memToday
  rcases h : alookup uid sm with _ | e
  · rfl
  · show (if e.date = d then e else (⟨d, 0, 0⟩ : MemEntry)).date = d
    by_cases hd : e.date = d
    · rw [if_pos hd]
      exact hd
    · rw [if_neg hd]

theorem memToday_eq (sm : MemStore) (uid : String) (d : Nat) :
    memToday sm uid d = ⟨d, memCount sm uid d, memBonus sm uid d⟩ := by
  have hd := memToday_date sm uid d
  unfold memCount memBonus
  rcases hmt : memToday sm uid d with ⟨dd, c, b⟩
  rw [hmt] at hd
  have hdd : dd = d := hd
  subst hdd
  rfl

theorem memToday_aset_ne (sm : MemStore) (uid uid' : String) (d : Nat) (e : MemEntry)
    (h : uid ≠ uid') : memToday (aset uid e sm) uid' d = memToday sm uid' d := by
  unfold memToday
  rw [alookup_aset_ne uid uid' e sm h]

theorem redisBonusVal_congr {sr sr' : RedisState} (h : sr'.bonuses = sr.bonuses)
    (uid : String) : redisBonusVal sr' uid = redisBonusVal sr uid := by
  unfold redisBonusVal
  rw [h]

theorem redisBonus_eq_val (sr : RedisState) (t : Nat) (uid : String) (d : Nat)
    (ht : dayOf t = d)
    (hblive : ∀ b e, alookup uid sr.bonuses = some (b, e) → (d + 1) * 86400 ≤ e) :
    redisBonus sr t uid = redisBonusVal sr uid := by
  unfold redisBonus redisBonusVal
  rcases h : alookup uid sr.bonuses with _ | ⟨b, e⟩
  · rfl
  · have hle := hblive b e h
    have hbr := dayOf_bracket t
    rw [ht] at hbr
    show (if t < e then b else 0) = b
    rw [if_pos (by omega)]

theorem redisDayCount_of_live (sr : RedisState) (uid : String) (d : Nat)
    (hlive : ∀ c e, alookup (uid, d) sr.counters = some (c, e) → (d + 1) * 86400 ≤ e) :
    redisDayCount sr uid d (redisCounterVal sr uid d) := by
  unfold redisDayCount redisCounterVal
  rcases h : alookup (uid, d) sr.counters with _ | ⟨c, e⟩
  · exact Or.inl ⟨rfl, rfl⟩
  · exact Or.inr ⟨e, rfl, hlive c e h⟩

theorem redisDayCount_val {sr : RedisState} {uid : String} {d c : Nat}
    (h : redisDayCount sr uid d c) : redisCounterVal sr uid d = c := by
  unfold redisCounterVal
  rcases h with ⟨hc0, halo⟩ | ⟨e, halo, _⟩
  · rw [halo, hc0]
  · rw [halo]

theorem redisDayCount_live {sr : RedisState} {uid : String} {d c : Nat}
    (h : redisDayCount sr uid d c) :
    ∀ c' e, alookup (uid, d) sr.counters = some (c', e) → (d + 1) * 86400 ≤ e := by
  intro c' e halo
  rcases h with ⟨_, halo'⟩ | ⟨e', halo', hle⟩
  · rw [halo'] at halo
    cases halo
  · rw [halo'] at halo
    injection halo with halo
    injection halo with _ he
    rw [← he]
    exact hle

theorem memCount_aset_same (sm : MemStore) (uid : String) (d : Nat) (e : MemEntry)
    (hd : e.date = d) : memCount (aset uid e sm) uid d = e.count := by
  unfold memCount
  rw [memToday_aset_same sm uid d e hd]

theorem memBonus_aset_same (sm : MemStore) (uid : String) (d : Nat) (e : MemEntry)
    (hd : e.date = d) : memBonus (aset uid e sm) uid d = e.bonus := by
  unfold memBonus
  rw [memToday_aset_same sm uid d e hd]

theorem memCount_aset_ne (sm : MemStore) (uid uid' : String) (d : Nat) (e : MemEntry)
    (h : uid ≠ uid') : memCount (aset uid e sm) uid' d = memCount sm uid' d := by
  unfold memCount
  rw [memToday_aset_ne sm uid uid' d e h]

theorem memBonus_aset_ne (sm : MemStore) (uid uid' : String) (d : Nat) (e : MemEntry)
    (h : uid ≠ uid') : memBonus (aset uid e sm) uid' d = memBonus sm uid' d := by
  unfold memBonus
  rw [memToday_aset_ne sm uid uid' d e h]

theorem redisCounterVal_eq_of_alookup (sr sr' : RedisState) (uid : String) (d : Nat)
    (h : alookup (uid, d) sr'.counters = alookup (uid, d) sr.counters) :
    redisCounterVal sr' uid d = redisCounterVal sr uid d := by
  unfold redisCounterVal
  rw [h]

/-- One same-day check preserves the path correspondence and yields the
same outcome on both paths. -/
theorem pathSync_check (sr : RedisState) (sm : MemStore) (d : Nat) (hs : PathSync sr sm d)
    (t : Nat) (ht : dayOf t = d) (uid role : String) :
    (check_rate_limit_redis sr t uid role).1 = (check_rate_limit_mem sm t uid role).1 ∧
    PathSync (check_rate_limit_redis sr t uid role).2 (check_rate_limit_mem sm t uid role).2
      d := by
  by_cases hrole : isAdminRole role
  · rw [check_redis_admin sr t uid role hrole, check_mem_admin sm t uid role hrole]
    exact ⟨rfl, hs⟩
  · have hrole' : isAdminRole role = false := by simpa using hrole
    have hmem := check_mem_nonadmin sm t uid role (memCount sm uid d) (memBonus sm uid d)
      hrole' (by rw [ht]; exact memToday_eq sm uid d)
    rw [ht] at hmem
    have hdc : redisDayCount sr uid d (redisCounterVal sr uid d) :=
      redisDayCount_of_live sr uid d (hs.counter_live uid)
    have hred := check_redis_nonadmin sr t uid role (redisCounterVal sr uid d) hrole'
      (by rw [ht]; exact hdc)
    rw [ht] at hred
    have hbv : redisBonus sr t uid = redisBonusVal sr uid :=
      redisBonus_eq_val sr t uid d ht (hs.bonus_live uid)
    constructor
    · rw [hred.1, hmem, hbv, ← hs.count_eq uid, ← hs.bonus_eq uid]
    · have hsm' : (check_rate_limit_mem sm t uid role).2 =
          aset uid ⟨d, memCount sm uid d + 1, memBonus sm uid d⟩ sm := by
        rw [hmem]
      have hbon' : (check_rate_limit_redis sr t uid role).2.bonuses = sr.bonuses :=
        hred.2.2.1
      have hrc' : redisCounterVal (check_rate_limit_redis sr t uid role).2 uid d =
          redisCounterVal sr uid d + 1 := redisDayCount_val hred.2.1
      have hlive' := redisDayCount_live hred.2.1
      have hother := hred.2.2.2
      refine ⟨?_, ?_, ?_, ?_, ?_⟩
      · intro uid' e' halo'
        rw [hsm'] at halo'
        by_cases huid : uid = uid'
        · subst huid
          rw [alookup_aset_self] at halo'
          injection halo' with halo'
          rw [← halo']
        · rw [alookup_aset_ne uid uid' _ sm huid] at halo'
          exact hs.dates uid' e' halo'
      · intro uid' c' e' halo'
        by_cases huid : uid' = uid
        · subst huid
          exact hlive' c' e' halo'
        · have hkne : (uid', d) ≠ (uid, d) := by
            intro hcontra
            exact huid (congrArg Prod.fst hcontra)
          rw [hother (uid', d) hkne] at halo'
          exact hs.counter_live uid' c' e' halo'
      · intro uid' b' e' halo'
        rw [hbon'] at halo'
        exact hs.bonus_live uid' b' e' halo'
      · intro uid'
        by_cases huid : uid = uid'
        · subst huid
          rw [hsm',
            memCount_aset_same sm uid d ⟨d, memCount sm uid d + 1, memBonus sm uid d⟩ rfl,
            hrc', hs.count_eq uid]
        · rw [hsm', memCount_aset_ne sm uid uid' d _ huid,
            redisCounterVal_eq_of_alookup sr _ uid' d
              (hother (uid', d) (by intro hcontra; exact huid (congrArg Prod.fst hcontra).symm))]
          exact hs.count_eq uid'
      · intro uid'
        by_cases huid : uid = uid'
        · subst huid
          rw [hsm',
            memBonus_aset_same sm uid d ⟨d, memCount sm uid d + 1, memBonus sm uid d⟩ rfl,
            redisBonusVal_congr hbon' uid, ← hs.bonus_eq uid]
        · rw [hsm', memBonus_aset_ne sm uid uid' d _ huid, redisBonusVal_congr hbon' uid']
          exact hs.bonus_eq uid'

theorem redisBonusVal_grant_self (sr : RedisState) (t : Nat) (uid : String) (n : Nat) :
    redisBonusVal (grant_quota_boost_redis sr t uid n) uid = n := by
  unfold redisBonusVal grant_quota_boost_redis
  rw [alookup_aset_self]

theorem redisBonusVal_grant_ne (sr : RedisState) (t : Nat) (uid uid' : String) (n : Nat)
    (h : uid ≠ uid') :
    redisBonusVal (grant_quota_boost_redis sr t uid n) uid' = redisBonusVal sr uid' := by
  unfold redisBonusVal grant_quota_boost_redis
  rw [alookup_aset_ne uid uid' _ _ h]

/-- On day-`d` traffic, `grant_quota_boost`'s memory path always amounts
to storing the record `{date: d, count: previous day-count, bonus: n}`. -/
theorem grant_mem_eval (sm : MemStore) (d : Nat) (hdates : ∀ uid e, alookup uid sm = some e →
      e.date = d) (t : Nat) (ht : dayOf t = d) (uid : String) (n : Nat) :
    grant_quota_boost_mem sm t uid n = aset uid ⟨d, memCount sm uid d, n⟩ sm := by
  unfold grant_quota_boost_mem
  rcases h : alookup uid sm with _ | e
  · have hc : memCount sm uid d = 0 := by
      unfold memCount memToday
      rw [h]
    rw [ht, hc]
  · have hd : e.date = d := hdates uid e h
    have hc : memCount sm uid d = e.count := by
      unfold memCount memToday
      rw [h]
      show (if e.date = d then e else (⟨d, 0, 0⟩ : MemEntry)).count = e.count
      rw [if_pos hd]
    rw [hc]
    rcases e with ⟨ed, ec, eb⟩
    have hdd : ed = d := hd
    subst hdd
    rfl

/-- One same-day grant preserves the path correspondence. -/
theorem pathSync_grant (sr : RedisState) (sm : MemStore) (d : Nat) (hs : PathSync sr sm d)
    (t : Nat) (ht : dayOf t = d) (uid : String) (n : Nat) :
    PathSync (grant_quota_boost_redis sr t uid n) (grant_quota_boost_mem sm t uid n) d := by
  have hbr := dayOf_bracket t
  rw [ht] at hbr
  have hbon : (grant_quota_boost_redis sr t uid n).bonuses =
      aset uid (n, t + 86400 * 30) sr.bonuses := rfl
  have hgm : grant_quota_boost_mem sm t uid n = aset uid ⟨d, memCount sm uid d, n⟩ sm :=
    grant_mem_eval sm d hs.dates t ht uid n
  refine ⟨?_, ?_, ?_, ?_, ?_⟩
  · intro uid' e' halo'
    rw [hgm] at halo'
    by_cases huid : uid = uid'
    · subst huid
      rw [alookup_aset_self] at halo'
      injection halo' with halo'
      rw [← halo']
    · rw [alookup_aset_ne uid uid' _ sm huid] at halo'
      exact hs.dates uid' e' halo'
  · intro uid' c' e' halo'
    exact hs.counter_live uid' c' e' halo'
  · intro uid' b' e' halo'
    rw [hbon] at halo'
    by_cases huid : uid = uid'
    · subst huid
      rw [alookup_aset_self] at halo'
      injection halo' with halo'
      injection halo' with _ he
      omega
    · rw [alookup_aset_ne uid uid' _ _ huid] at halo'
      exact hs.bonus_live uid' b' e' halo'
  · intro uid'
    by_cases huid : uid = uid'
    · subst huid
      rw [hgm, memCount_aset_same sm uid d ⟨d, memCount sm uid d, n⟩ rfl]
      exact hs.count_eq uid
    · rw [hgm, memCount_aset_ne sm uid uid' d _ huid]
      exact hs.count_eq uid'
  · intro uid'
    by_cases huid : uid = uid'
    · subst huid
      rw [hgm, memBonus_aset_same sm uid d ⟨d, memCount sm uid d, n⟩ rfl,
        redisBonusVal_grant_self]
    · rw [hgm, memBonus_aset_ne sm uid uid' d _ huid, redisBonusVal_grant_ne sr t uid uid' n huid]
      exact hs.bonus_eq uid'

theorem runRedis_check_fst (sr : RedisState) (uid role : String) (t : Nat)
    (ops : List (QOp × Nat)) :
    (runRedis sr ((.check uid role, t) :: ops)).1 =
      (check_rate_limit_redis sr t uid role).1 ::
        (runRedis (check_rate_limit_redis sr t uid role).2 ops).1 := by
  rcases h : check_rate_limit_redis sr t uid role with ⟨o, s'⟩
  simp only [runRedis, h]

theorem runRedis_check_snd (sr : RedisState) (uid role : String) (t : Nat)
    (ops : List (QOp × Nat)) :
    (runRedis sr ((.check uid role, t) :: ops)).2 =
      (runRedis (check_rate_limit_redis sr t uid role).2 ops).2 := by
  rcases h : check_rate_limit_redis sr t uid role with ⟨o, s'⟩
  simp only [runRedis, h]

theorem runMem_check_fst (sm : MemStore) (uid role : String) (t : Nat)
    (ops : List (QOp × Nat)) :
    (runMem sm ((.check uid role, t) :: ops)).1 =
      (check_rate_limit_mem sm t uid role).1 ::
        (runMem (check_rate_limit_mem sm t uid role).2 ops).1 := by
  rcases h : check_rate_limit_mem sm t uid role with ⟨o, s'⟩
  simp only [runMem, h]

theorem runMem_check_snd (sm : MemStore) (uid role : String) (t : Nat)
    (ops : List (QOp × Nat)) :
    (runMem sm ((.check uid role, t) :: ops)).2 =
      (runMem (check_rate_limit_mem sm t uid role).2 ops).2 := by
  rcases h : check_rate_limit_mem sm t uid role with ⟨o, s'⟩
  simp only [runMem, h]

/-- The two paths run in lockstep over any same-day operation sequence,
starting from any pair of corresponding stores. -/
theorem pathSync_run (d : Nat) :
    ∀ (ops : List (QOp × Nat)), (∀ p ∈ ops, dayOf p.2 = d) →
    ∀ (sr : RedisState) (sm : MemStore), PathSync sr sm d →
      (runRedis sr ops).1 = (runMem sm ops).1 ∧
      PathSync (runRedis sr ops).2 (runMem sm ops).2 d := by
  intro ops
  induction ops with
  | nil =>
    intro _ sr sm hs
    exact ⟨rfl, hs⟩
  | cons p ops ih =>
    intro hday sr sm hs
    obtain ⟨op, t⟩ := p
    have ht : dayOf t = d := hday (op, t) (List.mem_cons_self _ _)
    cases op with
    | check uid role =>
      have hstep := pathSync_check sr sm d hs t ht uid role
      have ihh := ih (fun p hp => hday p (List.mem_cons_of_mem _ hp))
        (check_rate_limit_redis sr t uid role).2 (check_rate_limit_mem sm t uid role).2
        hstep.2
      constructor
      · rw [runRedis_check_fst, runMem_check_fst, hstep.1, ihh.1]
      · rw [runRedis_check_snd, runMem_check_snd]
        exact ihh.2
    | grant uid n =>
      have hstep := pathSync_grant sr sm d hs t ht uid n
      have ihh := ih (fun p hp => hday p (List.mem_cons_of_mem _ hp))
        (grant_quota_boost_redis sr t uid n) (grant_quota_boost_mem sm t uid n) hstep
      exact ihh

theorem pathSync_empty (d : Nat) : PathSync ⟨[], []⟩ [] d := by
  refine ⟨?_, ?_, ?_, ?_, ?_⟩
  · intro uid e h
    simp [alookup] at h
  · intro uid c e h
    simp [alookup] at h
  · intro uid b e h
    simp [alookup] at h
  · intro uid
    rfl
  · intro uid
    rfl

/-- **C6 counterexample.**  The grant of 1 bonus message on day 0
followed by six checks on day 1 is decided differently by the two store
paths: Redis admits the sixth check (limit 6), the in-memory fallback
rejects it with limit 5, because its day rollover dropped the bonus. -/
theorem quota_paths_diverge_across_days :
    (runRedis ⟨[], []⟩ divergingOps).1 ≠ (runMem [] divergingOps).1 ∧
    (runRedis ⟨[], []⟩ divergingOps).1.get? 5 = some (.ok ⟨6, 0, 1⟩) ∧
    (runMem [] divergingOps).1.get? 5 = some (.http429 5) := by
  decide

/-- **C6 (amended).**  Starting from empty stores, the Redis path and
the in-memory fallback path produce identical check outcomes (admit and
reject decisions, effective limits included) for every sequence of
checks and grants whose timestamps all fall within one calendar day;
sequences crossing a day boundary can diverge as in the
counterexample. -/
theorem quota_paths_agree_within_one_day (d : Nat) (ops : List (QOp × Nat))
    (hday : ∀ p ∈ ops, dayOf p.2 = d) :
    (runRedis ⟨[], []⟩ ops).1 = (runMem [] ops).1 :=
  (pathSync_run d ops hday ⟨[], []⟩ [] (pathSync_empty d)).1

/-- Witness for `quota_paths_agree_within_one_day` on a concrete one-day
sequence (a grant and two checks, one of them admin). -/
theorem quota_paths_agree_witness :
    (runRedis ⟨[], []⟩ eqOpsOneDay).1 = (runMem [] eqOpsOneDay).1 :=
  quota_paths_agree_within_one_day 0 eqOpsOneDay (by decide)

end Yieldera
